import Mathlib

/-!
Shallow embedding of the `GroupImports` lint rule (weighted-sort variant,
`src/unnamed/part_000`) together with its static pattern-group
configuration (`src/plugin/rules/GroupImports/configuration.js`).

Conventions of the embedding:
* JS `undefined` for an absent string is modelled by `Option.none`; JS
  truthiness of a string value is `strTruthy` (both `undefined` and the
  empty string are falsy).
* The glob matcher (`micromatch.isMatch`) is an external black box and is
  passed in as a parameter `m : String → String → Bool`.
* Source offsets are `Int` (JS numbers under subtraction).
* A JS expression that can throw (reading `singleImports[0].alias` of an
  empty list) is modelled by an `Option` result; `none` is the thrown
  `TypeError`.
* `LINE_BREAK_LENGTH` is the non-Windows value 1 (the source reads
  `process.platform === 'win32' ? 2 : 1`).
-/


/-! ## Definitions: the embedded program -/

/-- One specifier of an `ImportDeclaration` node, flattened: `type`,
`imported.name` and `local.name` of the host AST node.  (The specifier's
own offsets are never read by the rule and are omitted.) -/
structure ImportSpecifier where
  type : String
  importedName : String
  localName : String
deriving DecidableEq

/-- An `ImportDeclaration` node: offsets, specifiers and `source.value`.
The `end` property of the source is called `endPos` (`end` is reserved). -/
structure ImportNode where
  type : String
  start : Int
  endPos : Int
  specifiers : List ImportSpecifier
  sourceValue : String
deriving DecidableEq

/-- `SingleImport`: a named import `name` with its local alias.  The
source field is called `alias`; that word is reserved here, so the field
is named `aliasName`. -/
structure SingleImport where
  name : String
  aliasName : String
deriving DecidableEq

/-- `ImportWeight`: group index, pattern index, kind rank (`type`) and the
tie-break name. -/
structure ImportWeight where
  group : Nat
  pattern : Nat
  type : Nat
  name : String
deriving DecidableEq

/-- `ImportRecord`: the normalized view of one import declaration. -/
structure ImportRecord where
  defaultImport : Option String
  namespaceImport : Option String
  singleImports : List SingleImport
  path : String
  weight : ImportWeight
  node : ImportNode
deriving DecidableEq

/-- JS truthiness of a possibly-`undefined` string: `undefined` and `''`
are falsy. -/
def strTruthy : Option String → Bool
  | none => false
  | some s => s != ""

/-- Interpolating a possibly-`undefined` string into a template literal. -/
def jsToString : Option String → String
  | none => "undefined"
  | some s => s

/-- `LINE_BREAK_LENGTH` on a non-Windows platform. -/
def LINE_BREAK_LENGTH : Int := 1

/-- `isDefaultImportSpecifier`. -/
def isDefaultImportSpecifier (s : ImportSpecifier) : Bool :=
  s.type == "ImportDefaultSpecifier"

/-- `isNamespaceImportSpecifier`. -/
def isNamespaceImportSpecifier (s : ImportSpecifier) : Bool :=
  s.type == "ImportNamespaceSpecifier"

/-- `isSingleImportSpecifier`. -/
def isSingleImportSpecifier (s : ImportSpecifier) : Bool :=
  s.type == "ImportSpecifier"

/-- `getImportSpecifierName`: the `local.name` of a specifier. -/
def getImportSpecifierName (s : ImportSpecifier) : String :=
  s.localName

/-- `getSingleImportAsCodeString`. -/
def getSingleImportAsCodeString (singleImport : SingleImport) : String :=
  if singleImport.name == singleImport.aliasName then
    singleImport.name
  else
    singleImport.name ++ " as " ++ singleImport.aliasName

/-- `getDefaultImportRecordAsCodeString`. -/
def getDefaultImportRecordAsCodeString (r : ImportRecord) : String :=
  "import " ++ jsToString r.defaultImport ++ " from '" ++ r.path ++ "';"

/-- `getDefaultAndSingleImportRecordAsCodeString`.  Note the source joins
the named imports with `','` (no space), unlike its own doc comment. -/
def getDefaultAndSingleImportRecordAsCodeString (r : ImportRecord) : String :=
  "import " ++ jsToString r.defaultImport ++ ", \x7b " ++
    String.intercalate "," (r.singleImports.map getSingleImportAsCodeString) ++
    " \x7d from '" ++ r.path ++ "';"

/-- `getDefaultAndNamespaceImportRecordAsCodeString`. -/
def getDefaultAndNamespaceImportRecordAsCodeString (r : ImportRecord) : String :=
  "import " ++ jsToString r.defaultImport ++ ", * as " ++
    jsToString r.namespaceImport ++ " from '" ++ r.path ++ "';"

/-- `getNamespaceImportRecordAsCodeString`. -/
def getNamespaceImportRecordAsCodeString (r : ImportRecord) : String :=
  "import * as " ++ jsToString r.namespaceImport ++ " from '" ++ r.path ++ "';"

/-- `getSingleImportRecordAsCodeString` (joined with `', '`). -/
def getSingleImportRecordAsCodeString (r : ImportRecord) : String :=
  "import \x7b " ++
    String.intercalate ", " (r.singleImports.map getSingleImportAsCodeString) ++
    " \x7d from '" ++ r.path ++ "';"

/-- `getImportRecordAsCodeString`: the six-way dispatch on which parts of
the record are (JS-truthily) present. -/
def getImportRecordAsCodeString (r : ImportRecord) : String :=
  let hasSingleImports : Bool := decide (0 < r.singleImports.length)
  if strTruthy r.defaultImport && !strTruthy r.namespaceImport && !hasSingleImports then
    getDefaultImportRecordAsCodeString r
  else if strTruthy r.defaultImport && strTruthy r.namespaceImport then
    getDefaultAndNamespaceImportRecordAsCodeString r
  else if strTruthy r.defaultImport && hasSingleImports then
    getDefaultAndSingleImportRecordAsCodeString r
  else if strTruthy r.namespaceImport then
    getNamespaceImportRecordAsCodeString r
  else if hasSingleImports then
    getSingleImportRecordAsCodeString r
  else
    ""

/-- Inner loop of `getImportWeight`: the index (counting from `j`) of the
first pattern in the list that matches `path` under the matcher `m`. -/
def findPatternIndex (m : String → String → Bool) (path : String) :
    List String → Nat → Option Nat
  | [], _ => none
  | p :: ps, j => if m path p then some j else findPatternIndex m path ps (j + 1)

/-- Outer loop of `getImportWeight`: the `(group, pattern)` index pair of
the first matching pattern, scanning groups from index `i`. -/
def findGroupMatch (m : String → String → Bool) (path : String) :
    List (List String) → Nat → Option (Nat × Nat)
  | [], _ => none
  | g :: gs, i =>
    match findPatternIndex m path g 0 with
    | some j => some (i, j)
    | none => findGroupMatch m path gs (i + 1)

/-- `getImportWeight`.  `none` models the `TypeError` thrown by
`singleImports[0].alias` when a matching record has no default import, no
namespace import and an empty named-import list. -/
def getImportWeight (m : String → String → Bool) (gs : List (List String))
    (defaultImport namespaceImport : Option String)
    (singleImports : List SingleImport) (path : String) : Option ImportWeight :=
  match findGroupMatch m path gs 0 with
  | some (i, j) =>
    let typeWeight : Nat :=
      if strTruthy defaultImport then 0
      else if strTruthy namespaceImport then 1
      else 2
    match
      (if strTruthy defaultImport then defaultImport
       else if strTruthy namespaceImport then namespaceImport
       else singleImports.head?.map (fun s => s.aliasName)) with
    | some n => some { group := i, pattern := j, type := typeWeight, name := n }
    | none => none
  | none => some { group := 0, pattern := 0, type := 0, name := "" }

/-- `getNumericImportWeight`: `1e6 * group + 1e3 * pattern + type`. -/
def getNumericImportWeight (w : ImportWeight) : Nat :=
  1000000 * w.group + 1000 * w.pattern + w.type

/-- `createImportRecord`.  `.pop()` on the filtered specifier lists is
`List.getLast?`; `none` propagates the `TypeError` of `getImportWeight`. -/
def createImportRecord (m : String → String → Bool) (gs : List (List String))
    (importNode : ImportNode) : Option ImportRecord :=
  let specifiers := importNode.specifiers
  let defaultImport :=
    ((specifiers.filter isDefaultImportSpecifier).map getImportSpecifierName).getLast?
  let namespaceImport :=
    ((specifiers.filter isNamespaceImportSpecifier).map getImportSpecifierName).getLast?
  let singleImports :=
    (specifiers.filter isSingleImportSpecifier).map
      (fun s => { name := s.importedName, aliasName := s.localName : SingleImport })
  let path := importNode.sourceValue
  match getImportWeight m gs defaultImport namespaceImport singleImports path with
  | some weight =>
    some { defaultImport := defaultImport, namespaceImport := namespaceImport,
           singleImports := singleImports, path := path, weight := weight,
           node := importNode }
  | none => none

/-- JS `<` on strings, on the underlying character lists: strict
lexicographic comparison, a proper prefix being smaller. -/
def jsCharListLt : List Char → List Char → Bool
  | _, [] => false
  | [], _ :: _ => true
  | a :: as, b :: bs =>
    if a < b then true
    else if b < a then false
    else jsCharListLt as bs

/-- JS `<` on strings. -/
def jsStringLt (a b : String) : Bool :=
  jsCharListLt a.data b.data

/-- `areImportWeightsSequential`: strictly smaller numeric weight, or an
equal numeric weight with a strictly lexicographically smaller name. -/
def areImportWeightsSequential (weightA weightB : ImportWeight) : Bool :=
  let numericWeightA := getNumericImportWeight weightA
  let numericWeightB := getNumericImportWeight weightB
  if numericWeightA < numericWeightB then true
  else if numericWeightA = numericWeightB then jsStringLt weightA.name weightB.name
  else false

/-- `areImportWeightsEqual`: all four components agree. -/
def areImportWeightsEqual (weightA weightB : ImportWeight) : Bool :=
  weightA.group == weightB.group &&
  weightA.pattern == weightB.pattern &&
  weightA.type == weightB.type &&
  weightA.name == weightB.name

/-- `areImportRecordsCorrectlyGrouped`: the Order Validator's walk over
adjacent pairs. -/
def areImportRecordsCorrectlyGrouped : List ImportRecord → Bool
  | [] => true
  | [_] => true
  | r1 :: r2 :: rest =>
    if areImportWeightsSequential r1.weight r2.weight then
      if r1.weight.group < r2.weight.group ∧
          r2.node.start - r1.node.endPos < LINE_BREAK_LENGTH * 2 then
        false
      else
        areImportRecordsCorrectlyGrouped (r2 :: rest)
    else
      false

/-- The comparator passed to `.sort` in `getFixedImportRecords`. -/
def importRecordCompare (recordA recordB : ImportRecord) : Int :=
  if areImportWeightsEqual recordA.weight recordB.weight then 0
  else if areImportWeightsSequential recordA.weight recordB.weight then -1
  else 1

/-- Stable insertion used by `stableSort`: `x` is placed before the first
element it does not compare strictly greater than. -/
def sortInsert (cmp : α → α → Int) (x : α) : List α → List α
  | [] => [x]
  | y :: ys => if cmp x y ≤ 0 then x :: y :: ys else y :: sortInsert cmp x ys

/-- A stable comparison sort, modelling JS `Array.prototype.sort` (stable
per the ECMAScript specification). -/
def stableSort (cmp : α → α → Int) : List α → List α
  | [] => []
  | x :: xs => sortInsert cmp x (stableSort cmp xs)

/-- The `.map` step of `getFixedImportRecords`: each statement's text,
with an extra line break appended when the next record is in a different
group. -/
def renderSorted : List ImportRecord → List String
  | [] => []
  | [r] => [getImportRecordAsCodeString r]
  | r :: r2 :: rest =>
    (if r2.weight.group == r.weight.group then
       getImportRecordAsCodeString r
     else
       getImportRecordAsCodeString r ++ "\n") :: renderSorted (r2 :: rest)

/-- `getFixedImportRecords`: the Code Regenerator. -/
def getFixedImportRecords (importRecords : List ImportRecord) : String :=
  String.intercalate "\n" (renderSorted (stableSort importRecordCompare importRecords))

/-- `groups` from `configuration.js`. -/
def groups : List (List String) :=
  [ [ "react", "prop-types", "react-*", "redux", "reselect", "lodash" ],
    [ "sr-*", "tdr-*" ],
    [ "components/**/*" ],
    [ "modules/!(utilities)" ],
    [ "modules/**/selectors" ],
    [ "modules/**/sagas" ],
    [ "modules/utilities" ] ]

/-- A concrete instance of the black-box matcher: a path matches a pattern
exactly when it equals it literally. -/
def matchLiteral (path pat : String) : Bool := path == pat

/-- A concrete instance of the black-box matcher matching nothing. -/
def matchNothing (_path _pat : String) : Bool := false

/-- A concrete instance of the black-box matcher matching everything. -/
def matchAll (_path _pat : String) : Bool := true

/-- The property the Order Validator checks for one adjacent pair:
sequential weights, and no missing blank line at a group increase. -/
def okPair (a b : ImportRecord) : Prop :=
  areImportWeightsSequential a.weight b.weight = true ∧
  ¬(a.weight.group < b.weight.group ∧
    b.node.start - a.node.endPos < LINE_BREAK_LENGTH * 2)

instance (a b : ImportRecord) : Decidable (okPair a b) :=
  inferInstanceAs (Decidable
    (areImportWeightsSequential a.weight b.weight = true ∧
      ¬(a.weight.group < b.weight.group ∧
        b.node.start - a.node.endPos < LINE_BREAK_LENGTH * 2)))

/-- Dropping a JS-falsy string value: the normalized field the Builder
recovers from the regenerated text (an absent part parses to nothing). -/
def normOpt (o : Option String) : Option String :=
  if strTruthy o then o else none

/-- Modelled from the spec: the host engine's parser is not part of this
repository, so the specifier list it produces for one regenerated import
statement is reconstructed from the §6 output grammar.  A statement
carries its default and namespace names exactly when they are rendered,
and its named imports exactly when the namespace form (which omits them)
is not used. -/
def recordToSpecifiers (r : ImportRecord) : List ImportSpecifier :=
  (if strTruthy r.defaultImport then
    [{ type := "ImportDefaultSpecifier",
       importedName := jsToString r.defaultImport,
       localName := jsToString r.defaultImport }]
   else []) ++
  (if strTruthy r.namespaceImport then
    [{ type := "ImportNamespaceSpecifier",
       importedName := jsToString r.namespaceImport,
       localName := jsToString r.namespaceImport }]
   else []) ++
  (if strTruthy r.namespaceImport then []
   else r.singleImports.map fun s =>
     { type := "ImportSpecifier", importedName := s.name, localName := s.aliasName })

/-- Modelled from the spec: the offsets at which the Regenerator's output
lays out each statement.  Statements are joined by one line break, plus
one extra line break appended when the group index changes (mirroring
`getFixedImportRecords`). -/
def layoutNodes (pos : Int) : List ImportRecord → List ImportNode
  | [] => []
  | r :: rest =>
    { type := "ImportDeclaration", start := pos,
      endPos := pos + ((getImportRecordAsCodeString r).length : Int),
      specifiers := recordToSpecifiers r,
      sourceValue := r.path } ::
    layoutNodes
      (pos + ((getImportRecordAsCodeString r).length : Int) +
        (match rest with
         | [] => 0
         | r2 :: _ => if r2.weight.group == r.weight.group then 1 else 2))
      rest

/-- The Builder applied to every node of a program, aborting (as the JS
`Array.prototype.map` would, by the exception propagating) when any
single record construction throws. -/
def buildRecords (m : String → String → Bool) (gs : List (List String)) :
    List ImportNode → Option (List ImportRecord)
  | [] => some []
  | n :: rest =>
    match createImportRecord m gs n, buildRecords m gs rest with
    | some r, some rs => some (r :: rs)
    | _, _ => none

/-- Modelled from the spec: `Builder-reparse(L')` for `L'` the
Regenerator's output on `L` — the records the Builder yields on the
statements of `L'`, with positions as laid out in `L'`. -/
def reparseOutput (m : String → String → Bool) (gs : List (List String))
    (L : List ImportRecord) : Option (List ImportRecord) :=
  buildRecords m gs (layoutNodes 0 (stableSort importRecordCompare L))

/-- A record as the Builder itself produces it: its stored weight is the
weight computed from its fields, and it has at least one rendered part
(so that it corresponds to an actual import statement). -/
def wellFormedRecord (m : String → String → Bool) (gs : List (List String))
    (r : ImportRecord) : Prop :=
  getImportWeight m gs r.defaultImport r.namespaceImport r.singleImports r.path
      = some r.weight ∧
  (strTruthy r.defaultImport = true ∨ strTruthy r.namespaceImport = true ∨
    r.singleImports ≠ [])

instance (m : String → String → Bool) (gs : List (List String))
    (r : ImportRecord) : Decidable (wellFormedRecord m gs r) :=
  inferInstanceAs (Decidable
    (getImportWeight m gs r.defaultImport r.namespaceImport r.singleImports
        r.path = some r.weight ∧
      (strTruthy r.defaultImport = true ∨ strTruthy r.namespaceImport = true ∨
        r.singleImports ≠ [])))

/-- The node of one regenerated statement as laid out at offset `pos`
(the head step of `layoutNodes`). -/
def layoutNode (pos : Int) (r : ImportRecord) : ImportNode :=
  { type := "ImportDeclaration", start := pos,
    endPos := pos + ((getImportRecordAsCodeString r).length : Int),
    specifiers := recordToSpecifiers r, sourceValue := r.path }

/-- The record the Builder recovers from one regenerated statement of a
well-formed record `r`: the same fields up to normalization, the same
weight, positioned at the laid-out node `n`. -/
def reparsedRecord (r : ImportRecord) (n : ImportNode) : ImportRecord :=
  { defaultImport := normOpt r.defaultImport,
    namespaceImport := normOpt r.namespaceImport,
    singleImports :=
      if strTruthy r.namespaceImport = true then [] else r.singleImports,
    path := r.path, weight := r.weight, node := n }

/-- Two records whose weights are strictly ordered one way or the other. -/
def comparableRecords (a b : ImportRecord) : Prop :=
  areImportWeightsSequential a.weight b.weight = true ∨
  areImportWeightsSequential b.weight a.weight = true

instance (a b : ImportRecord) : Decidable (comparableRecords a b) :=
  inferInstanceAs (Decidable
    (areImportWeightsSequential a.weight b.weight = true ∨
      areImportWeightsSequential b.weight a.weight = true))

/-- Unmatched named-only record (degenerate weight), first of a pair. -/
def c1RecordA : ImportRecord :=
  { defaultImport := none, namespaceImport := none,
    singleImports := [⟨"x", "x"⟩], path := "px",
    weight := ⟨0, 0, 0, ""⟩,
    node := ⟨"ImportDeclaration", 0, 23, [], "px"⟩ }

/-- Unmatched named-only record (degenerate weight), second of a pair. -/
def c1RecordB : ImportRecord :=
  { defaultImport := none, namespaceImport := none,
    singleImports := [⟨"y", "y"⟩], path := "py",
    weight := ⟨0, 0, 0, ""⟩,
    node := ⟨"ImportDeclaration", 24, 47, [], "py"⟩ }

/-- Record with a strictly smaller tie-break name than `c1RecordD`. -/
def c1RecordC : ImportRecord :=
  { defaultImport := none, namespaceImport := none,
    singleImports := [⟨"a", "a"⟩], path := "pa",
    weight := ⟨0, 0, 2, "a"⟩,
    node := ⟨"ImportDeclaration", 0, 22, [], "pa"⟩ }

/-- Record with a strictly larger tie-break name than `c1RecordC`. -/
def c1RecordD : ImportRecord :=
  { defaultImport := none, namespaceImport := none,
    singleImports := [⟨"b", "b"⟩], path := "pb",
    weight := ⟨0, 0, 2, "b"⟩,
    node := ⟨"ImportDeclaration", 23, 45, [], "pb"⟩ }

/-- The source doc comment's own example record: a default import plus two
named imports. -/
def c2Record : ImportRecord :=
  { defaultImport := some "React", namespaceImport := none,
    singleImports := [⟨"Component", "Component"⟩, ⟨"createRef", "createRef"⟩],
    path := "react", weight := ⟨0, 0, 0, "React"⟩,
    node := ⟨"ImportDeclaration", 0, 52, [], "react"⟩ }

/-- Builder-produced record for an unmatched path `za` (degenerate
weight). -/
def c3RecordA : ImportRecord :=
  { defaultImport := none, namespaceImport := none,
    singleImports := [⟨"x", "x"⟩], path := "za",
    weight := ⟨0, 0, 0, ""⟩,
    node := ⟨"ImportDeclaration", 0, 23, [], "za"⟩ }

/-- Builder-produced record for an unmatched path `zb` (degenerate
weight). -/
def c3RecordB : ImportRecord :=
  { defaultImport := none, namespaceImport := none,
    singleImports := [⟨"y", "y"⟩], path := "zb",
    weight := ⟨0, 0, 0, ""⟩,
    node := ⟨"ImportDeclaration", 24, 47, [], "zb"⟩ }

/-- Builder-produced record for the path `react` under `matchLiteral`. -/
def c3WitnessA : ImportRecord :=
  { defaultImport := some "React", namespaceImport := none,
    singleImports := [], path := "react",
    weight := ⟨0, 0, 0, "React"⟩,
    node := ⟨"ImportDeclaration", 0, 27, [], "react"⟩ }

/-- Builder-produced record for the path `redux` under `matchLiteral`. -/
def c3WitnessB : ImportRecord :=
  { defaultImport := some "Redux", namespaceImport := none,
    singleImports := [], path := "redux",
    weight := ⟨0, 3, 0, "Redux"⟩,
    node := ⟨"ImportDeclaration", 28, 55, [], "redux"⟩ }

/-- Group-0 record ending at offset 23. -/
def c4RecordA : ImportRecord :=
  { defaultImport := some "A", namespaceImport := none,
    singleImports := [], path := "pa",
    weight := ⟨0, 0, 0, "A"⟩,
    node := ⟨"ImportDeclaration", 0, 23, [], "pa"⟩ }

/-- Group-1 record one line break after `c4RecordA` (gap 1). -/
def c4RecordBad : ImportRecord :=
  { defaultImport := some "B", namespaceImport := none,
    singleImports := [], path := "pb",
    weight := ⟨1, 0, 0, "B"⟩,
    node := ⟨"ImportDeclaration", 24, 47, [], "pb"⟩ }

/-- Group-1 record a blank line after `c4RecordA` (gap 2). -/
def c4RecordGood : ImportRecord :=
  { defaultImport := some "B", namespaceImport := none,
    singleImports := [], path := "pb",
    weight := ⟨1, 0, 0, "B"⟩,
    node := ⟨"ImportDeclaration", 25, 48, [], "pb"⟩ }

/-- Unmatched named-only record for path `za` (equal degenerate weight
with `c7RecordB`). -/
def c7RecordA : ImportRecord :=
  { defaultImport := none, namespaceImport := none,
    singleImports := [⟨"x", "x"⟩], path := "za",
    weight := ⟨0, 0, 0, ""⟩,
    node := ⟨"ImportDeclaration", 0, 23, [], "za"⟩ }

/-- Unmatched named-only record for path `zb` (equal degenerate weight
with `c7RecordA`). -/
def c7RecordB : ImportRecord :=
  { defaultImport := none, namespaceImport := none,
    singleImports := [⟨"y", "y"⟩], path := "zb",
    weight := ⟨0, 0, 0, ""⟩,
    node := ⟨"ImportDeclaration", 24, 47, [], "zb"⟩ }

/-- Record with weight strictly below `c7WitnessB`. -/
def c7WitnessA : ImportRecord :=
  { defaultImport := some "A", namespaceImport := none,
    singleImports := [], path := "pa",
    weight := ⟨0, 0, 0, "A"⟩,
    node := ⟨"ImportDeclaration", 0, 23, [], "pa"⟩ }

/-- Record with weight strictly above `c7WitnessA`. -/
def c7WitnessB : ImportRecord :=
  { defaultImport := some "B", namespaceImport := none,
    singleImports := [], path := "pb",
    weight := ⟨0, 1, 0, "B"⟩,
    node := ⟨"ImportDeclaration", 24, 47, [], "pb"⟩ }

/-- A record with no default import, no namespace import and with no
named imports: the degenerate sixth branch of the renderer. -/
def c9Record : ImportRecord :=
  { defaultImport := none, namespaceImport := none,
    singleImports := [], path := "p",
    weight := ⟨0, 0, 0, ""⟩,
    node := ⟨"ImportDeclaration", 0, 0, [], "p"⟩ }

/-- A bare side-effect import of `react`: an `ImportDeclaration` node
with an empty specifier list whose path matches the first configured
pattern under `matchLiteral`. -/
def c10Node : ImportNode :=
  { type := "ImportDeclaration", start := 0, endPos := 15,
    specifiers := [], sourceValue := "react" }

/-- An import declaration of one named import from `react`. -/
def c10WitnessNode : ImportNode :=
  { type := "ImportDeclaration", start := 0, endPos := 35,
    specifiers := [⟨"ImportSpecifier", "useState", "useState"⟩],
    sourceValue := "react" }

/-! ## Theorems -/

theorem jsCharListLt_irrefl : ∀ l : List Char, jsCharListLt l l = false := by
  intro l
  induction l with
  | nil => rfl
  | cons a as ih => simp [jsCharListLt, lt_irrefl, ih]

theorem jsCharListLt_asymm : ∀ l₁ l₂ : List Char,
    jsCharListLt l₁ l₂ = true → jsCharListLt l₂ l₁ = false := by
  intro l₁
  induction l₁ with
  | nil =>
    intro l₂ h
    cases l₂ with
    | nil => simp [jsCharListLt] at h
    | cons b bs => simp [jsCharListLt]
  | cons a as ih =>
    intro l₂ h
    cases l₂ with
    | nil => simp [jsCharListLt] at h
    | cons b bs =>
      by_cases hab : a < b
      · have hba : ¬ b < a := lt_asymm hab
        simp [jsCharListLt, hba, hab]
      · by_cases hba : b < a
        · simp [jsCharListLt, hab, hba] at h
        · simp only [jsCharListLt, if_neg hab, if_neg hba] at h
          simp [jsCharListLt, hab, hba, ih bs h]

theorem jsCharListLt_trans : ∀ l₁ l₂ l₃ : List Char,
    jsCharListLt l₁ l₂ = true → jsCharListLt l₂ l₃ = true →
    jsCharListLt l₁ l₃ = true := by
  intro l₁
  induction l₁ with
  | nil =>
    intro l₂ l₃ h₁ h₂
    cases l₃ with
    | nil =>
      cases l₂ with
      | nil => simp [jsCharListLt] at h₁
      | cons b bs => simp [jsCharListLt] at h₂
    | cons c cs => simp [jsCharListLt]
  | cons a as ih =>
    intro l₂ l₃ h₁ h₂
    cases l₂ with
    | nil => simp [jsCharListLt] at h₁
    | cons b bs =>
      cases l₃ with
      | nil => simp [jsCharListLt] at h₂
      | cons c cs =>
        by_cases hab : a < b
        · by_cases hbc : b < c
          · have hac : a < c := lt_trans hab hbc
            simp [jsCharListLt, hac]
          · by_cases hcb : c < b
            · simp [jsCharListLt, hbc, hcb] at h₂
            · have hbc' : b = c := le_antisymm (le_of_not_lt hcb) (le_of_not_lt hbc)
              subst hbc'
              simp [jsCharListLt, hab]
        · by_cases hba : b < a
          · simp [jsCharListLt, hab, hba] at h₁
          · have hab' : a = b := le_antisymm (le_of_not_lt hba) (le_of_not_lt hab)
            subst hab'
            simp only [jsCharListLt, lt_irrefl, if_neg (lt_irrefl a)] at h₁
            by_cases hac : a < c
            · simp [jsCharListLt, hac]
            · by_cases hca : c < a
              · simp [jsCharListLt, hac, hca] at h₂
              · simp only [jsCharListLt, if_neg hac, if_neg hca] at h₂ ⊢
                exact ih bs cs h₁ h₂

theorem jsStringLt_irrefl (s : String) : jsStringLt s s = false :=
  jsCharListLt_irrefl s.data

theorem jsStringLt_asymm {a b : String} (h : jsStringLt a b = true) :
    jsStringLt b a = false :=
  jsCharListLt_asymm a.data b.data h

theorem jsStringLt_trans {a b c : String} (h₁ : jsStringLt a b = true)
    (h₂ : jsStringLt b c = true) : jsStringLt a c = true :=
  jsCharListLt_trans a.data b.data c.data h₁ h₂

/-- `areImportWeightsEqual` decides equality of weights. -/
theorem areImportWeightsEqual_iff {a b : ImportWeight} :
    areImportWeightsEqual a b = true ↔ a = b := by
  cases a; cases b
  simp [areImportWeightsEqual, ImportWeight.mk.injEq, and_assoc]

/-- Characterization of `areImportWeightsSequential`. -/
theorem areImportWeightsSequential_iff {a b : ImportWeight} :
    areImportWeightsSequential a b = true ↔
      (getNumericImportWeight a < getNumericImportWeight b ∨
        (getNumericImportWeight a = getNumericImportWeight b ∧
          jsStringLt a.name b.name = true)) := by
  unfold areImportWeightsSequential
  by_cases h₁ : getNumericImportWeight a < getNumericImportWeight b
  · simp [h₁]
  · by_cases h₂ : getNumericImportWeight a = getNumericImportWeight b
    · simp [h₁, h₂]
    · simp [h₁, h₂]

theorem areImportWeightsSequential_irrefl (a : ImportWeight) :
    areImportWeightsSequential a a = false := by
  simp [areImportWeightsSequential, jsStringLt_irrefl]

theorem areImportWeightsSequential_asymm {a b : ImportWeight}
    (h : areImportWeightsSequential a b = true) :
    areImportWeightsSequential b a = false := by
  rw [areImportWeightsSequential_iff] at h
  cases hb : areImportWeightsSequential b a
  · rfl
  · exfalso
    rw [areImportWeightsSequential_iff] at hb
    rcases h with h | ⟨hn, hlt⟩ <;> rcases hb with hb | ⟨hn', hlt'⟩
    · omega
    · omega
    · omega
    · rw [jsStringLt_asymm hlt] at hlt'
      simp at hlt'

theorem areImportWeightsSequential_trans {a b c : ImportWeight}
    (h₁ : areImportWeightsSequential a b = true)
    (h₂ : areImportWeightsSequential b c = true) :
    areImportWeightsSequential a c = true := by
  rw [areImportWeightsSequential_iff] at h₁ h₂ ⊢
  rcases h₁ with h₁ | ⟨hn₁, hlt₁⟩ <;> rcases h₂ with h₂ | ⟨hn₂, hlt₂⟩
  · exact Or.inl (lt_trans h₁ h₂)
  · exact Or.inl (by omega)
  · exact Or.inl (by omega)
  · exact Or.inr ⟨by omega, jsStringLt_trans hlt₁ hlt₂⟩

/-- Sequentiality is impossible between equal weights. -/
theorem areImportWeightsSequential_of_eq {a b : ImportWeight} (h : a = b) :
    areImportWeightsSequential a b = false := by
  subst h; exact areImportWeightsSequential_irrefl a

/-- The comparator is non-positive exactly on equal or sequential weights. -/
theorem importRecordCompare_le_iff {a b : ImportRecord} :
    importRecordCompare a b ≤ 0 ↔
      (a.weight = b.weight ∨ areImportWeightsSequential a.weight b.weight = true) := by
  unfold importRecordCompare
  by_cases heq : areImportWeightsEqual a.weight b.weight = true
  · rw [if_pos heq]
    simp [areImportWeightsEqual_iff.mp heq]
  · rw [Bool.not_eq_true] at heq
    by_cases hseq : areImportWeightsSequential a.weight b.weight = true
    · simp [heq, hseq]
    · have : a.weight ≠ b.weight := fun h => by
        rw [areImportWeightsEqual_iff.mpr h] at heq; simp at heq
      rw [Bool.not_eq_true] at hseq
      simp [heq, hseq, this]

theorem importRecordCompare_le_trans {a b c : ImportRecord}
    (h₁ : importRecordCompare a b ≤ 0) (h₂ : importRecordCompare b c ≤ 0) :
    importRecordCompare a c ≤ 0 := by
  rw [importRecordCompare_le_iff] at h₁ h₂ ⊢
  rcases h₁ with h₁ | h₁ <;> rcases h₂ with h₂ | h₂
  · exact Or.inl (h₁.trans h₂)
  · exact Or.inr (h₁ ▸ h₂)
  · exact Or.inr (h₂ ▸ h₁)
  · exact Or.inr (areImportWeightsSequential_trans h₁ h₂)

/-- The Order Validator's loop accepts exactly the lists whose adjacent
pairs all satisfy `okPair`. -/
theorem areImportRecordsCorrectlyGrouped_iff_chain' :
    ∀ L : List ImportRecord,
      areImportRecordsCorrectlyGrouped L = true ↔ List.Chain' okPair L := by
  intro L
  induction L with
  | nil => simp [areImportRecordsCorrectlyGrouped]
  | cons a t ih =>
    cases t with
    | nil => simp [areImportRecordsCorrectlyGrouped]
    | cons b t' =>
      have hstep : areImportRecordsCorrectlyGrouped (a :: b :: t') =
          (if areImportWeightsSequential a.weight b.weight then
            (if a.weight.group < b.weight.group ∧
                b.node.start - a.node.endPos < LINE_BREAK_LENGTH * 2 then
              false
            else areImportRecordsCorrectlyGrouped (b :: t'))
          else false) := rfl
      rw [List.chain'_cons, ← ih, hstep]
      by_cases hseq : areImportWeightsSequential a.weight b.weight = true
      · by_cases hbad : a.weight.group < b.weight.group ∧
            b.node.start - a.node.endPos < LINE_BREAK_LENGTH * 2
        · simp [hseq, hbad, okPair]
        · simp [hseq, hbad, okPair]
      · rw [Bool.not_eq_true] at hseq
        simp [hseq, okPair]

theorem sortInsert_perm (cmp : α → α → Int) (x : α) :
    ∀ l : List α, List.Perm (sortInsert cmp x l) (x :: l) := by
  intro l
  induction l with
  | nil => exact List.Perm.refl _
  | cons y ys ih =>
    unfold sortInsert
    by_cases h : cmp x y ≤ 0
    · rw [if_pos h]
    · rw [if_neg h]
      exact (ih.cons y).trans (List.Perm.swap x y ys)

theorem stableSort_perm (cmp : α → α → Int) :
    ∀ l : List α, List.Perm (stableSort cmp l) l := by
  intro l
  induction l with
  | nil => exact List.Perm.refl _
  | cons x xs ih =>
    exact (sortInsert_perm cmp x (stableSort cmp xs)).trans (ih.cons x)

theorem sortInsert_chain' (cmp : α → α → Int) (x : α) :
    ∀ l : List α, (∀ b ∈ l, cmp x b ≤ 0 ∨ cmp b x ≤ 0) →
      List.Chain' (fun a b => cmp a b ≤ 0) l →
      List.Chain' (fun a b => cmp a b ≤ 0) (sortInsert cmp x l) := by
  intro l
  induction l with
  | nil => intro _ _; simp [sortInsert]
  | cons y ys ih =>
    intro htot hc
    unfold sortInsert
    by_cases h : cmp x y ≤ 0
    · rw [if_pos h]
      exact List.chain'_cons.mpr ⟨h, hc⟩
    · rw [if_neg h]
      have hyx : cmp y x ≤ 0 := by
        rcases htot y (List.mem_cons_self y ys) with h' | h'
        · exact absurd h' h
        · exact h'
      apply List.chain'_cons'.mpr
      refine ⟨?_, ih (fun b hb => htot b (List.mem_cons_of_mem y hb)) hc.tail⟩
      intro z hz
      cases ys with
      | nil =>
        simp [sortInsert] at hz
        subst hz; exact hyx
      | cons w ws =>
        unfold sortInsert at hz
        by_cases hw : cmp x w ≤ 0
        · rw [if_pos hw] at hz
          simp at hz
          subst hz; exact hyx
        · rw [if_neg hw] at hz
          simp at hz
          subst hz
          exact (List.chain'_cons.mp hc).1

theorem stableSort_chain' (cmp : α → α → Int) :
    ∀ l : List α, (∀ a ∈ l, ∀ b ∈ l, cmp a b ≤ 0 ∨ cmp b a ≤ 0) →
      List.Chain' (fun a b => cmp a b ≤ 0) (stableSort cmp l) := by
  intro l
  induction l with
  | nil => simp [stableSort]
  | cons x xs ih =>
    intro htot
    apply sortInsert_chain'
    · intro b hb
      have hbxs : b ∈ xs := (stableSort_perm cmp xs).subset hb
      exact htot x (List.mem_cons_self x xs) b (List.mem_cons_of_mem x hbxs)
    · exact ih (fun a ha b hb =>
        htot a (List.mem_cons_of_mem x ha) b (List.mem_cons_of_mem x hb))

theorem stableSort_eq_of_chain' (cmp : α → α → Int) :
    ∀ l : List α, List.Chain' (fun a b => cmp a b ≤ 0) l →
      stableSort cmp l = l := by
  intro l
  induction l with
  | nil => intro _; rfl
  | cons x xs ih =>
    intro hc
    unfold stableSort
    rw [ih hc.tail]
    cases xs with
    | nil => rfl
    | cons y ys =>
      unfold sortInsert
      rw [if_pos (List.chain'_cons.mp hc).1]

/-- Two sorted lists that are permutations of one another and on whose
elements the order is antisymmetric are equal. -/
theorem sorted_perm_eq {α : Type} {le : α → α → Prop} :
    ∀ l₁ l₂ : List α, List.Perm l₁ l₂ →
      List.Pairwise le l₁ → List.Pairwise le l₂ →
      (∀ a b, a ∈ l₁ → b ∈ l₁ → le a b → le b a → a = b) →
      l₁ = l₂ := by
  intro l₁
  induction l₁ with
  | nil =>
    intro l₂ hp _ _ _
    exact (hp.symm.eq_nil).symm
  | cons a t₁ ih =>
    intro l₂ hp hp₁ hp₂ hanti
    cases l₂ with
    | nil => exact absurd hp.eq_nil (by simp)
    | cons b t₂ =>
      have hab : a = b := by
        by_cases h : a = b
        · exact h
        · have ha2 : a ∈ b :: t₂ := hp.subset (List.mem_cons_self a t₁)
          have hb1 : b ∈ a :: t₁ := hp.symm.subset (List.mem_cons_self b t₂)
          have hat₂ : a ∈ t₂ := by
            rcases List.mem_cons.mp ha2 with h' | h'
            · exact absurd h' h
            · exact h'
          have hbt₁ : b ∈ t₁ := by
            rcases List.mem_cons.mp hb1 with h' | h'
            · exact absurd h'.symm h
            · exact h'
          have hle_ab : le a b := List.rel_of_pairwise_cons hp₁ hbt₁
          have hle_ba : le b a := List.rel_of_pairwise_cons hp₂ hat₂
          exact hanti a b (List.mem_cons_self a t₁) hb1 hle_ab hle_ba
      subst hab
      have ht : t₁ = t₂ :=
        ih t₂ hp.cons_inv hp₁.of_cons hp₂.of_cons
          (fun x y hx hy => hanti x y (List.mem_cons_of_mem a hx)
            (List.mem_cons_of_mem a hy))
      rw [ht]

theorem findPatternIndex_none {m : String → String → Bool} {path : String} :
    ∀ {ps : List String}, (∀ p ∈ ps, m path p = false) →
      ∀ j, findPatternIndex m path ps j = none := by
  intro ps
  induction ps with
  | nil => intro _ j; rfl
  | cons p ps ih =>
    intro h j
    unfold findPatternIndex
    rw [h p (List.mem_cons_self p ps)]
    simp only [Bool.false_eq_true, if_false]
    exact ih (fun q hq => h q (List.mem_cons_of_mem p hq)) (j + 1)

theorem findPatternIndex_first {m : String → String → Bool} {path p : String}
    {ps₂ : List String} :
    ∀ {ps₁ : List String}, (∀ q ∈ ps₁, m path q = false) → m path p = true →
      ∀ j, findPatternIndex m path (ps₁ ++ p :: ps₂) j = some (j + ps₁.length) := by
  intro ps₁
  induction ps₁ with
  | nil =>
    intro _ hp j
    unfold findPatternIndex
    simp [hp]
  | cons q qs ih =>
    intro h hp j
    have hq : m path q = false := h q (List.mem_cons_self q qs)
    unfold findPatternIndex
    simp only [List.cons_append, hq, Bool.false_eq_true, if_false]
    rw [ih (fun x hx => h x (List.mem_cons_of_mem q hx)) hp (j + 1)]
    have harith : j + 1 + qs.length = j + (q :: qs).length := by
      simp only [List.length_cons]
      omega
    rw [harith]

theorem findGroupMatch_none {m : String → String → Bool} {path : String} :
    ∀ {gs : List (List String)}, (∀ g ∈ gs, ∀ p ∈ g, m path p = false) →
      ∀ i, findGroupMatch m path gs i = none := by
  intro gs
  induction gs with
  | nil => intro _ i; rfl
  | cons g gs ih =>
    intro h i
    unfold findGroupMatch
    rw [findPatternIndex_none (h g (List.mem_cons_self g gs)) 0]
    exact ih (fun g' hg' => h g' (List.mem_cons_of_mem g hg')) (i + 1)

theorem findGroupMatch_skip {m : String → String → Bool} {path : String}
    {gs₂ : List (List String)} :
    ∀ {gs₁ : List (List String)}, (∀ g ∈ gs₁, ∀ p ∈ g, m path p = false) →
      ∀ i, findGroupMatch m path (gs₁ ++ gs₂) i =
        findGroupMatch m path gs₂ (i + gs₁.length) := by
  intro gs₁
  induction gs₁ with
  | nil => intro _ i; simp
  | cons g gs ih =>
    intro h i
    have hstep : findGroupMatch m path ((g :: gs) ++ gs₂) i =
        (match findPatternIndex m path g 0 with
         | some j => some (i, j)
         | none => findGroupMatch m path (gs ++ gs₂) (i + 1)) := rfl
    rw [hstep, findPatternIndex_none (h g (List.mem_cons_self g gs)) 0]
    show findGroupMatch m path (gs ++ gs₂) (i + 1) = _
    rw [ih (fun g' hg' => h g' (List.mem_cons_of_mem g hg')) (i + 1)]
    have harith : i + 1 + gs.length = i + (g :: gs).length := by
      simp only [List.length_cons]
      omega
    rw [harith]

theorem findPatternIndex_bound {m : String → String → Bool} {path : String} :
    ∀ {ps : List String} {j k : Nat}, findPatternIndex m path ps j = some k →
      k < j + ps.length := by
  intro ps
  induction ps with
  | nil => intro j k h; exact absurd h (by simp [findPatternIndex])
  | cons p ps ih =>
    intro j k h
    unfold findPatternIndex at h
    by_cases hm : m path p = true
    · rw [if_pos hm] at h
      injection h with h
      subst h
      simp only [List.length_cons]
      omega
    · rw [Bool.not_eq_true] at hm
      rw [hm] at h
      simp only [Bool.false_eq_true, if_false] at h
      have := ih h
      simp [List.length_cons]
      omega

theorem findGroupMatch_mem {m : String → String → Bool} {path : String} :
    ∀ {gs : List (List String)} {i a b : Nat},
      findGroupMatch m path gs i = some (a, b) →
      ∃ g ∈ gs, findPatternIndex m path g 0 = some b := by
  intro gs
  induction gs with
  | nil => intro i a b h; exact absurd h (by simp [findGroupMatch])
  | cons g gs ih =>
    intro i a b h
    unfold findGroupMatch at h
    cases hp : findPatternIndex m path g 0 with
    | some j =>
      rw [hp] at h
      injection h with h
      refine ⟨g, List.mem_cons_self g gs, ?_⟩
      rw [hp]
      have : j = b := congrArg Prod.snd h
      rw [this]
    | none =>
      rw [hp] at h
      obtain ⟨g', hg', hfind⟩ := ih h
      exact ⟨g', List.mem_cons_of_mem g hg', hfind⟩

/-- Bounds on the pattern-index and kind components of any weight the
calculator can return for a configuration whose groups all hold at most
999 patterns. -/
theorem getImportWeight_bounds {m : String → String → Bool}
    {gs : List (List String)} {d ns : Option String} {si : List SingleImport}
    {path : String} {w : ImportWeight}
    (hlen : ∀ g ∈ gs, g.length ≤ 999)
    (h : getImportWeight m gs d ns si path = some w) :
    w.pattern ≤ 999 ∧ w.type ≤ 2 := by
  unfold getImportWeight at h
  cases hfind : findGroupMatch m path gs 0 with
  | none =>
    rw [hfind] at h
    injection h with h
    subst h
    exact ⟨by simp, by simp⟩
  | some ij =>
    obtain ⟨i, j⟩ := ij
    rw [hfind] at h
    obtain ⟨g, hg, hfp⟩ := findGroupMatch_mem hfind
    have hj : j < g.length := by
      have := findPatternIndex_bound hfp
      omega
    have hjle : j ≤ 999 := by
      have := hlen g hg
      omega
    rcases hname : (if strTruthy d then d
        else if strTruthy ns then ns
        else si.head?.map (fun s => s.aliasName)) with _ | n
    · rw [hname] at h
      exact absurd h (by simp)
    · rw [hname] at h
      injection h with h
      subst h
      refine ⟨hjle, ?_⟩
      by_cases h1 : strTruthy d = true
      · simp [h1]
      · rw [Bool.not_eq_true] at h1
        by_cases h2 : strTruthy ns = true
        · simp [h1, h2]
        · rw [Bool.not_eq_true] at h2
          simp [h1, h2]

/-- With pattern and kind components below 1000 the scalar key orders
weights exactly as the lexicographic order on
(group, pattern, kind) does. -/
theorem getNumericImportWeight_lt_iff {w w' : ImportWeight}
    (h1 : w.pattern ≤ 999) (h2 : w.type ≤ 999)
    (h3 : w'.pattern ≤ 999) (h4 : w'.type ≤ 999) :
    (getNumericImportWeight w < getNumericImportWeight w' ↔
      (w.group < w'.group ∨
        (w.group = w'.group ∧
          (w.pattern < w'.pattern ∨
            (w.pattern = w'.pattern ∧ w.type < w'.type))))) := by
  unfold getNumericImportWeight
  omega

theorem strTruthy_normOpt (o : Option String) :
    strTruthy (normOpt o) = strTruthy o := by
  unfold normOpt
  by_cases h : strTruthy o = true
  · rw [if_pos h]
  · rw [Bool.not_eq_true] at h
    rw [h]
    simp [strTruthy]

theorem normOpt_of_truthy {o : Option String} (h : strTruthy o = true) :
    normOpt o = o := if_pos h

theorem jsToString_normOpt {o : Option String} (h : strTruthy o = true) :
    jsToString (normOpt o) = jsToString o := by
  rw [normOpt_of_truthy h]

/-- The normalized fields feed through the weight calculator unchanged. -/
theorem getImportWeight_normalize (m : String → String → Bool)
    (gs : List (List String)) (d ns : Option String) (si : List SingleImport)
    (path : String) :
    getImportWeight m gs (normOpt d) (normOpt ns)
        (if strTruthy ns = true then [] else si) path =
      getImportWeight m gs d ns si path := by
  unfold getImportWeight
  cases hf : findGroupMatch m path gs 0 with
  | none => rfl
  | some ij =>
    obtain ⟨i, j⟩ := ij
    by_cases hd : strTruthy d = true
    · simp [strTruthy_normOpt, hd, normOpt_of_truthy hd]
    · rw [Bool.not_eq_true] at hd
      by_cases hns : strTruthy ns = true
      · simp [strTruthy_normOpt, hd, hns, normOpt_of_truthy hns]
      · rw [Bool.not_eq_true] at hns
        simp [strTruthy_normOpt, hd, hns]

theorem isDefaultImportSpecifier_single (s : SingleImport) :
    isDefaultImportSpecifier
      { type := "ImportSpecifier", importedName := s.name,
        localName := s.aliasName } = false := rfl

theorem isNamespaceImportSpecifier_single (s : SingleImport) :
    isNamespaceImportSpecifier
      { type := "ImportSpecifier", importedName := s.name,
        localName := s.aliasName } = false := rfl

theorem isSingleImportSpecifier_single (s : SingleImport) :
    isSingleImportSpecifier
      { type := "ImportSpecifier", importedName := s.name,
        localName := s.aliasName } = true := rfl

theorem map_reconstruct : ∀ si : List SingleImport,
    si.map (fun s => ({ name := s.name, aliasName := s.aliasName } :
      SingleImport)) = si := by
  intro si
  induction si with
  | nil => rfl
  | cons s ss ih => simp only [List.map_cons, ih]

theorem some_jsToString {o : Option String} (h : strTruthy o = true) :
    some (jsToString o) = o := by
  cases o with
  | none => simp [strTruthy] at h
  | some s => rfl

theorem singleImports_roundtrip : ∀ si : List SingleImport,
    (si.map (fun s =>
      ({ type := "ImportSpecifier", importedName := s.name,
         localName := s.aliasName } : ImportSpecifier))).map
      (fun sp => ({ name := sp.importedName,
                    aliasName := sp.localName } : SingleImport)) = si := by
  intro si
  induction si with
  | nil => rfl
  | cons s ss ih => simp [ih]

/-- The Builder recovers the (normalized) default import from the
reconstructed specifier list. -/
theorem reparse_defaultImport (r : ImportRecord) :
    (((recordToSpecifiers r).filter isDefaultImportSpecifier).map
        getImportSpecifierName).getLast? = normOpt r.defaultImport := by
  unfold recordToSpecifiers normOpt
  by_cases hd : strTruthy r.defaultImport = true <;>
    by_cases hns : strTruthy r.namespaceImport = true <;>
      simp [hd, hns, List.filter_append, List.filter_map, Function.comp_def,
        isDefaultImportSpecifier, getImportSpecifierName, some_jsToString,
        isDefaultImportSpecifier_single]

/-- The Builder recovers the (normalized) namespace import from the
reconstructed specifier list. -/
theorem reparse_namespaceImport (r : ImportRecord) :
    (((recordToSpecifiers r).filter isNamespaceImportSpecifier).map
        getImportSpecifierName).getLast? = normOpt r.namespaceImport := by
  unfold recordToSpecifiers normOpt
  by_cases hd : strTruthy r.defaultImport = true <;>
    by_cases hns : strTruthy r.namespaceImport = true <;>
      simp [hd, hns, List.filter_append, List.filter_map, Function.comp_def,
        isNamespaceImportSpecifier, getImportSpecifierName, some_jsToString,
        isNamespaceImportSpecifier_single]

/-- The Builder recovers the named imports (empty when the namespace form
was rendered) from the reconstructed specifier list. -/
theorem reparse_singleImports (r : ImportRecord) :
    ((recordToSpecifiers r).filter isSingleImportSpecifier).map
        (fun s => ({ name := s.importedName,
                     aliasName := s.localName } : SingleImport)) =
      (if strTruthy r.namespaceImport = true then [] else r.singleImports) := by
  unfold recordToSpecifiers
  by_cases hd : strTruthy r.defaultImport = true <;>
    by_cases hns : strTruthy r.namespaceImport = true <;>
      simp [hd, hns, List.filter_append, List.filter_map, Function.comp_def,
        isSingleImportSpecifier, singleImports_roundtrip,
        isSingleImportSpecifier_single, map_reconstruct]

/-- Normalizing the fields as re-parsing does leaves the rendered text
unchanged. -/
theorem getImportRecordAsCodeString_normalize (r : ImportRecord)
    (w : ImportWeight) (n : ImportNode) :
    getImportRecordAsCodeString
      { defaultImport := normOpt r.defaultImport,
        namespaceImport := normOpt r.namespaceImport,
        singleImports :=
          if strTruthy r.namespaceImport = true then [] else r.singleImports,
        path := r.path, weight := w, node := n } =
      getImportRecordAsCodeString r := by
  unfold getImportRecordAsCodeString getDefaultImportRecordAsCodeString
    getDefaultAndNamespaceImportRecordAsCodeString
    getDefaultAndSingleImportRecordAsCodeString
    getNamespaceImportRecordAsCodeString getSingleImportRecordAsCodeString
  by_cases hd : strTruthy r.defaultImport = true <;>
    by_cases hns : strTruthy r.namespaceImport = true <;>
      by_cases hsi : r.singleImports = []
  all_goals
    simp [strTruthy_normOpt, jsToString_normOpt, hd, hns, hsi, List.length_pos]

/-- What the Builder produces on a node carrying the reconstructed
specifiers of a well-formed record: the same record up to field
normalization, with the same weight. -/
theorem createImportRecord_reparse (m : String → String → Bool)
    (gs : List (List String)) (r : ImportRecord) (n : ImportNode)
    (hspec : n.specifiers = recordToSpecifiers r)
    (hsrc : n.sourceValue = r.path)
    (hw : getImportWeight m gs r.defaultImport r.namespaceImport
        r.singleImports r.path = some r.weight) :
    createImportRecord m gs n = some
      { defaultImport := normOpt r.defaultImport,
        namespaceImport := normOpt r.namespaceImport,
        singleImports :=
          if strTruthy r.namespaceImport = true then [] else r.singleImports,
        path := r.path, weight := r.weight, node := n } := by
  simp only [createImportRecord, hspec, hsrc, reparse_defaultImport,
    reparse_namespaceImport, reparse_singleImports,
    getImportWeight_normalize, hw]

theorem createImportRecord_layoutNode (m : String → String → Bool)
    (gs : List (List String)) (r : ImportRecord) (pos : Int)
    (hw : getImportWeight m gs r.defaultImport r.namespaceImport
        r.singleImports r.path = some r.weight) :
    createImportRecord m gs (layoutNode pos r) =
      some (reparsedRecord r (layoutNode pos r)) :=
  createImportRecord_reparse m gs r (layoutNode pos r) rfl rfl hw

theorem reparsedRecord_render (r : ImportRecord) (n : ImportNode) :
    getImportRecordAsCodeString (reparsedRecord r n) =
      getImportRecordAsCodeString r :=
  getImportRecordAsCodeString_normalize r r.weight n

/-- Round-trip core: re-building records from the laid-out output of a
weight-sequential, well-formed record list succeeds, validates as
canonical, renders to the same statement texts, and is sorted for the
regenerator's comparator. -/
theorem buildRecords_layout (m : String → String → Bool)
    (gs : List (List String)) :
    ∀ (S : List ImportRecord) (pos : Int),
      (∀ r ∈ S, wellFormedRecord m gs r) →
      List.Chain'
        (fun a b => areImportWeightsSequential a.weight b.weight = true) S →
      ∃ R, buildRecords m gs (layoutNodes pos S) = some R ∧
        areImportRecordsCorrectlyGrouped R = true ∧
        renderSorted R = renderSorted S ∧
        List.Chain' (fun a b => importRecordCompare a b ≤ 0) R ∧
        ((S = [] ∧ R = []) ∨
          (∃ s t r t', S = s :: t ∧ R = r :: t' ∧ r.weight = s.weight ∧
            r.node.start = pos)) := by
  intro S
  induction S with
  | nil =>
    intro pos _ _
    exact ⟨[], rfl, rfl, rfl, List.chain'_nil, Or.inl ⟨rfl, rfl⟩⟩
  | cons s t ih =>
    intro pos hw hc
    have hws : wellFormedRecord m gs s := hw s (List.mem_cons_self s t)
    have hr₁ := createImportRecord_layoutNode m gs s pos hws.1
    cases t with
    | nil =>
      refine ⟨[reparsedRecord s (layoutNode pos s)], ?_, rfl, ?_, ?_, ?_⟩
      · show buildRecords m gs (layoutNodes pos [s]) = _
        have hlay : layoutNodes pos [s] = [layoutNode pos s] := rfl
        rw [hlay]
        simp only [buildRecords, hr₁]
      · show [getImportRecordAsCodeString (reparsedRecord s (layoutNode pos s))]
            = [getImportRecordAsCodeString s]
        rw [reparsedRecord_render]
      · exact List.chain'_singleton _
      · exact Or.inr ⟨s, [], reparsedRecord s (layoutNode pos s), [],
          rfl, rfl, rfl, rfl⟩
    | cons s₂ t₂ =>
      have hwt : ∀ r ∈ s₂ :: t₂, wellFormedRecord m gs r :=
        fun r hr => hw r (List.mem_cons_of_mem s hr)
      obtain ⟨R₂, hbuild₂, hval₂, hrender₂, hchain₂, hhead₂⟩ :=
        ih (pos + ((getImportRecordAsCodeString s).length : Int) +
          (if s₂.weight.group == s.weight.group then (1 : Int) else 2))
          hwt hc.tail
      rcases hhead₂ with ⟨habs, _⟩ | ⟨s₂', t₂'', r₂, t₂', hS₂, hR₂, hw₂, hpos₂⟩
      · exact absurd habs (by simp)
      · have h1 : s₂ = s₂' := by injection hS₂
        rw [← h1] at hw₂
        subst hR₂
        have hseq₁₂ : areImportWeightsSequential s.weight s₂.weight = true :=
          (List.chain'_cons.mp hc).1
        refine ⟨reparsedRecord s (layoutNode pos s) :: r₂ :: t₂',
          ?_, ?_, ?_, ?_, ?_⟩
        · show buildRecords m gs (layoutNodes pos (s :: s₂ :: t₂)) = _
          have hlay : layoutNodes pos (s :: s₂ :: t₂) =
              layoutNode pos s ::
              layoutNodes
                (pos + ((getImportRecordAsCodeString s).length : Int) +
                  (if s₂.weight.group == s.weight.group then (1 : Int) else 2))
                (s₂ :: t₂) := rfl
          have hstep : buildRecords m gs (layoutNode pos s ::
              layoutNodes
                (pos + ((getImportRecordAsCodeString s).length : Int) +
                  (if s₂.weight.group == s.weight.group then (1 : Int) else 2))
                (s₂ :: t₂)) =
              (match createImportRecord m gs (layoutNode pos s),
                buildRecords m gs (layoutNodes
                  (pos + ((getImportRecordAsCodeString s).length : Int) +
                    (if s₂.weight.group == s.weight.group then (1 : Int) else 2))
                  (s₂ :: t₂)) with
               | some r, some rs => some (r :: rs)
               | _, _ => none) := rfl
          rw [hlay, hstep, hr₁, hbuild₂]
        · rw [areImportRecordsCorrectlyGrouped_iff_chain', List.chain'_cons]
          constructor
          · constructor
            · show areImportWeightsSequential s.weight r₂.weight = true
              rw [hw₂]
              exact hseq₁₂
            · intro ⟨hglt, hgap⟩
              rw [hpos₂] at hgap
              have hglt' : s.weight.group < s₂.weight.group := by
                have hsg : (reparsedRecord s (layoutNode pos s)).weight.group
                    = s.weight.group := rfl
                rw [hsg, hw₂] at hglt
                exact hglt
              have hne : (s₂.weight.group == s.weight.group) = false :=
                beq_eq_false_iff_ne.mpr (ne_of_gt hglt')
              have hsep : (if s₂.weight.group == s.weight.group then (1 : Int)
                  else 2) = 2 := by
                rw [hne]
                decide
              rw [hsep] at hgap
              have hend : (reparsedRecord s (layoutNode pos s)).node.endPos =
                  pos + ((getImportRecordAsCodeString s).length : Int) := rfl
              rw [hend] at hgap
              simp only [LINE_BREAK_LENGTH] at hgap
              omega
          · exact (areImportRecordsCorrectlyGrouped_iff_chain' _).mp hval₂
        · have hrs : renderSorted (s :: s₂ :: t₂) =
              (if s₂.weight.group == s.weight.group then
                getImportRecordAsCodeString s
              else getImportRecordAsCodeString s ++ "\n") ::
                renderSorted (s₂ :: t₂) := rfl
          have hrs' : renderSorted
              (reparsedRecord s (layoutNode pos s) :: r₂ :: t₂') =
              (if r₂.weight.group ==
                  (reparsedRecord s (layoutNode pos s)).weight.group then
                getImportRecordAsCodeString (reparsedRecord s (layoutNode pos s))
              else getImportRecordAsCodeString
                (reparsedRecord s (layoutNode pos s)) ++ "\n") ::
                renderSorted (r₂ :: t₂') := rfl
          rw [hrs, hrs', hrender₂, hw₂, reparsedRecord_render]
          rfl
        · rw [List.chain'_cons]
          constructor
          · rw [importRecordCompare_le_iff]
            right
            show areImportWeightsSequential s.weight r₂.weight = true
            rw [hw₂]
            exact hseq₁₂
          · exact hchain₂
        · exact Or.inr ⟨s, s₂ :: t₂, reparsedRecord s (layoutNode pos s),
            r₂ :: t₂', rfl, rfl, rfl, rfl⟩

theorem comparableRecords_symm : Symmetric comparableRecords :=
  fun _ _ h => h.symm

theorem importRecordCompare_self (a : ImportRecord) :
    importRecordCompare a a = 0 := by
  unfold importRecordCompare
  rw [if_pos (areImportWeightsEqual_iff.mpr rfl)]

theorem chain'_and {α : Type} {R S : α → α → Prop} :
    ∀ {l : List α}, List.Chain' R l → List.Chain' S l →
      List.Chain' (fun a b => R a b ∧ S a b) l := by
  intro l
  induction l with
  | nil => intro _ _; exact List.chain'_nil
  | cons x xs ih =>
    cases xs with
    | nil => intro _ _; exact List.chain'_singleton x
    | cons y ys =>
      intro h1 h2
      rw [List.chain'_cons] at h1 h2 ⊢
      exact ⟨⟨h1.1, h2.1⟩, ih h1.2 h2.2⟩

theorem compare_total_of_pairwise {L : List ImportRecord}
    (hcomp : L.Pairwise comparableRecords) :
    ∀ a ∈ L, ∀ b ∈ L, importRecordCompare a b ≤ 0 ∨
      importRecordCompare b a ≤ 0 := by
  intro a ha b hb
  by_cases hab : a = b
  · subst hab
    rw [importRecordCompare_self]
    exact Or.inl le_rfl
  · rcases hcomp.forall comparableRecords_symm ha hb hab with h | h
    · exact Or.inl (importRecordCompare_le_iff.mpr (Or.inr h))
    · exact Or.inr (importRecordCompare_le_iff.mpr (Or.inr h))

/-- Pairwise comparability forces the stable sort's output into a chain of
strictly sequential weights. -/
theorem stableSort_chain_seq {L : List ImportRecord}
    (hcomp : L.Pairwise comparableRecords) :
    List.Chain'
      (fun a b => areImportWeightsSequential a.weight b.weight = true)
      (stableSort importRecordCompare L) := by
  have hle := stableSort_chain' importRecordCompare L
    (compare_total_of_pairwise hcomp)
  have hpairS : (stableSort importRecordCompare L).Pairwise comparableRecords :=
    ((stableSort_perm importRecordCompare L).pairwise_iff
      (fun h => Or.symm h)).mpr hcomp
  have hcompS := hpairS.chain'
  refine (chain'_and hle hcompS).imp ?_
  intro a b ⟨hab, hcomp_ab⟩
  rcases importRecordCompare_le_iff.mp hab with heq | hseq
  · exfalso
    rcases hcomp_ab with h | h
    · rw [heq] at h
      rw [areImportWeightsSequential_irrefl] at h
      exact absurd h (by simp)
    · rw [heq] at h
      rw [areImportWeightsSequential_irrefl] at h
      exact absurd h (by simp)
  · exact hseq

/-- With pairwise-comparable weights the stable sort's output is uniquely
determined by the multiset of records, whatever the input order. -/
theorem stableSort_perm_invariant {L L' : List ImportRecord}
    (hcomp : L.Pairwise comparableRecords) (hperm : List.Perm L' L) :
    stableSort importRecordCompare L' = stableSort importRecordCompare L := by
  have hcomp' : L'.Pairwise comparableRecords :=
    (hperm.pairwise_iff (fun h => Or.symm h)).mpr hcomp
  have hleL := stableSort_chain' importRecordCompare L
    (compare_total_of_pairwise hcomp)
  have hleL' := stableSort_chain' importRecordCompare L'
    (compare_total_of_pairwise hcomp')
  letI : IsTrans ImportRecord (fun a b => importRecordCompare a b ≤ 0) :=
    ⟨fun _ _ _ => importRecordCompare_le_trans⟩
  have hpL : (stableSort importRecordCompare L).Pairwise
      (fun a b => importRecordCompare a b ≤ 0) :=
    List.chain'_iff_pairwise.mp hleL
  have hpL' : (stableSort importRecordCompare L').Pairwise
      (fun a b => importRecordCompare a b ≤ 0) :=
    List.chain'_iff_pairwise.mp hleL'
  apply @sorted_perm_eq ImportRecord (fun a b => importRecordCompare a b ≤ 0)
  · exact ((stableSort_perm importRecordCompare L').trans hperm).trans
      (stableSort_perm importRecordCompare L).symm
  · exact hpL'
  · exact hpL
  · intro a b ha hb hab hba
    have haL : a ∈ L := hperm.subset ((stableSort_perm importRecordCompare L').subset ha)
    have hbL : b ∈ L := hperm.subset ((stableSort_perm importRecordCompare L').subset hb)
    by_cases h : a = b
    · exact h
    · exfalso
      rcases hcomp.forall comparableRecords_symm haL hbL h with hs | hs
      · rcases importRecordCompare_le_iff.mp hba with heq | hseq
        · rw [heq] at hs
          rw [areImportWeightsSequential_irrefl] at hs
          exact absurd hs (by simp)
        · rw [areImportWeightsSequential_asymm hs] at hseq
          exact absurd hseq (by simp)
      · rcases importRecordCompare_le_iff.mp hab with heq | hseq
        · rw [← heq] at hs
          rw [areImportWeightsSequential_irrefl] at hs
          exact absurd hs (by simp)
        · rw [areImportWeightsSequential_asymm hs] at hseq
          exact absurd hseq (by simp)

theorem chain'_of_append_cons_cons {α : Type} {R : α → α → Prop}
    {pre post : List α} {a b : α}
    (h : List.Chain' R (pre ++ a :: b :: post)) : R a b := by
  rcases List.chain'_append.mp h with ⟨_, h2, _⟩
  exact (List.chain'_cons.mp h2).1

/-- C1 counterexample: a two-record list whose only adjacent pair has
weights agreeing in all four components is flagged non-canonical by the
validator, so the claim's acceptance condition fails. -/
theorem c1_counterexample :
    areImportWeightsEqual c1RecordA.weight c1RecordB.weight = true ∧
    areImportRecordsCorrectlyGrouped [c1RecordA, c1RecordB] = false := by
  decide

/-- C1 (amended): the Order Validator accepts a list when every adjacent
pair is strictly sequential under the §3 ordering (smaller numeric key,
or equal numeric key and strictly lexicographically smaller name) and no
group increase lacks its blank line; an adjacent pair whose weights agree
in all four components is always flagged, because the name tie-break is
strict. -/
theorem c1_validator_strict (L : List ImportRecord) :
    (List.Chain' okPair L → areImportRecordsCorrectlyGrouped L = true) ∧
    (∀ (pre post : List ImportRecord) (a b : ImportRecord),
      L = pre ++ a :: b :: post →
      areImportWeightsEqual a.weight b.weight = true →
      areImportRecordsCorrectlyGrouped L = false) := by
  constructor
  · exact fun h => (areImportRecordsCorrectlyGrouped_iff_chain' L).mpr h
  · intro pre post a b hL heq
    cases hval : areImportRecordsCorrectlyGrouped L
    · rfl
    · exfalso
      have hch := (areImportRecordsCorrectlyGrouped_iff_chain' L).mp hval
      subst hL
      have hpair := chain'_of_append_cons_cons hch
      have hseq := hpair.1
      rw [areImportWeightsSequential_of_eq
        (areImportWeightsEqual_iff.mp heq)] at hseq
      exact absurd hseq (by simp)

/-- C1 witness: the amended theorem applied to concrete lists — a
strictly sequential pair is accepted, an all-components-equal pair is
flagged. -/
theorem c1_witness :
    areImportRecordsCorrectlyGrouped [c1RecordC, c1RecordD] = true ∧
    areImportRecordsCorrectlyGrouped [c1RecordA, c1RecordB] = false :=
  ⟨(c1_validator_strict [c1RecordC, c1RecordD]).1
     (List.chain'_pair.mpr (by decide)),
   (c1_validator_strict [c1RecordA, c1RecordB]).2 [] [] c1RecordA c1RecordB
     rfl (by decide)⟩

/-- C2: on the renderer's own doc-comment example (default import plus
two named imports) the code emits the named imports joined by a bare
comma with no following space, diverging from the documented and
specified grammar form `import X, { a, b as c } from 'P';`. -/
theorem c2_separator_no_space :
    getImportRecordAsCodeString c2Record =
      "import React, { Component,createRef } from 'react';" ∧
    getImportRecordAsCodeString c2Record ≠
      "import React, { Component, createRef } from 'react';" := by
  decide

/-- C4: for an adjacent pair whose group index strictly increases, a gap
smaller than two line-break units forces the validator to flag the whole
list, and when every adjacent pair (this one included) is sequential and
properly gapped the validator accepts. -/
theorem c4_gap_rule (pre post : List ImportRecord) (a b : ImportRecord)
    (hg : a.weight.group < b.weight.group) :
    (b.node.start - a.node.endPos < LINE_BREAK_LENGTH * 2 →
      areImportRecordsCorrectlyGrouped (pre ++ a :: b :: post) = false) ∧
    (List.Chain' okPair (pre ++ a :: b :: post) →
      areImportRecordsCorrectlyGrouped (pre ++ a :: b :: post) = true) := by
  constructor
  · intro hgap
    cases hval : areImportRecordsCorrectlyGrouped (pre ++ a :: b :: post)
    · rfl
    · exfalso
      have hch :=
        (areImportRecordsCorrectlyGrouped_iff_chain' _).mp hval
      exact (chain'_of_append_cons_cons hch).2 ⟨hg, hgap⟩
  · exact fun h => (areImportRecordsCorrectlyGrouped_iff_chain' _).mpr h

/-- C4 witness: a group increase separated by a single line break is
flagged; separated by a blank line it is accepted. -/
theorem c4_witness :
    areImportRecordsCorrectlyGrouped [c4RecordA, c4RecordBad] = false ∧
    areImportRecordsCorrectlyGrouped [c4RecordA, c4RecordGood] = true :=
  ⟨(c4_gap_rule [] [] c4RecordA c4RecordBad (by decide)).1 (by decide),
   (c4_gap_rule [] [] c4RecordA c4RecordGood (by decide)).2
     (List.chain'_pair.mpr (by decide))⟩

/-- C6: when no configured pattern matches the path, the Weight
Calculator returns (without throwing) the degenerate weight with group 0,
pattern 0, kind 0 and empty name, whose scalar key is minimal, so
unmatched imports sort before (or tie with) every matched import. -/
theorem c6_unmatched_first_slot (m : String → String → Bool)
    (gs : List (List String)) (d ns : Option String)
    (si : List SingleImport) (path : String)
    (h : ∀ g ∈ gs, ∀ p ∈ g, m path p = false) :
    getImportWeight m gs d ns si path =
      some { group := 0, pattern := 0, type := 0, name := "" } ∧
    ∀ w : ImportWeight,
      getNumericImportWeight { group := 0, pattern := 0, type := 0, name := "" }
        ≤ getNumericImportWeight w := by
  constructor
  · unfold getImportWeight
    rw [findGroupMatch_none h 0]
  · intro w
    have h0 : getNumericImportWeight ⟨0, 0, 0, ""⟩ = 0 := rfl
    rw [h0]
    exact Nat.zero_le _

/-- C6 witness: the theorem applied to a path matching nothing under the
supplied configuration. -/
theorem c6_witness :
    getImportWeight matchNothing groups none none [⟨"x", "x"⟩] "nothing" =
      some { group := 0, pattern := 0, type := 0, name := "" } :=
  (c6_unmatched_first_slot matchNothing groups none none [⟨"x", "x"⟩]
    "nothing" (fun _ _ _ _ => rfl)).1

/-- C9: a record with no default import, no namespace import and an empty
named-import list renders as the empty string (the degenerate sixth
branch); the renderer is total and does not throw. -/
theorem c9_empty_record_renders_empty (r : ImportRecord)
    (hd : r.defaultImport = none) (hns : r.namespaceImport = none)
    (hsi : r.singleImports = []) :
    getImportRecordAsCodeString r = "" := by
  unfold getImportRecordAsCodeString
  simp [hd, hns, hsi, strTruthy]

/-- C9 witness: the degenerate record renders as `''`. -/
theorem c9_witness : getImportRecordAsCodeString c9Record = "" :=
  c9_empty_record_renders_empty c9Record rfl rfl rfl

/-- C3 counterexample: two Builder-produced records for unmatched paths
carry the same degenerate weight; re-building records from the
Regenerator's output and running the Order Validator yields `false`, not
'already canonical'. -/
theorem c3_counterexample :
    (∀ r ∈ [c3RecordA, c3RecordB], wellFormedRecord matchNothing groups r) ∧
    (reparseOutput matchNothing groups [c3RecordA, c3RecordB]).map
        areImportRecordsCorrectlyGrouped = some false := by
  constructor
  · intro r hr
    rcases List.mem_cons.mp hr with h | h
    · subst h
      exact ⟨by decide, by decide⟩
    · rcases List.mem_cons.mp h with h' | h'
      · subst h'
        exact ⟨by decide, by decide⟩
      · exact absurd h' (by simp)
  · decide

/-- C3 (amended): for Builder-produced (well-formed) records with
pairwise strictly-ordered weights, the round trip holds: re-building
records from the Regenerator's output succeeds, the Order Validator
accepts them, and regenerating from them reproduces the output text
byte-for-byte. -/
theorem c3_roundtrip_of_comparable (m : String → String → Bool)
    (gs : List (List String)) (L : List ImportRecord)
    (hw : ∀ r ∈ L, wellFormedRecord m gs r)
    (hcomp : L.Pairwise comparableRecords) :
    ∃ R, reparseOutput m gs L = some R ∧
      areImportRecordsCorrectlyGrouped R = true ∧
      getFixedImportRecords R = getFixedImportRecords L := by
  have hwS : ∀ r ∈ stableSort importRecordCompare L, wellFormedRecord m gs r :=
    fun r hr => hw r ((stableSort_perm importRecordCompare L).subset hr)
  obtain ⟨R, hbuild, hval, hrender, hchainR, _⟩ :=
    buildRecords_layout m gs (stableSort importRecordCompare L) 0 hwS
      (stableSort_chain_seq hcomp)
  refine ⟨R, hbuild, hval, ?_⟩
  unfold getFixedImportRecords
  rw [stableSort_eq_of_chain' importRecordCompare R hchainR, hrender]

/-- C3 witness: the amended round trip at two concrete records matched by
the first configured group. -/
theorem c3_witness :
    ∃ R, reparseOutput matchLiteral groups [c3WitnessA, c3WitnessB] = some R ∧
      areImportRecordsCorrectlyGrouped R = true ∧
      getFixedImportRecords R =
        getFixedImportRecords [c3WitnessA, c3WitnessB] := by
  apply c3_roundtrip_of_comparable
  · intro r hr
    rcases List.mem_cons.mp hr with h | h
    · subst h
      exact ⟨by decide, by decide⟩
    · rcases List.mem_cons.mp h with h' | h'
      · subst h'
        exact ⟨by decide, by decide⟩
      · exact absurd h' (by simp)
  · refine List.pairwise_cons.mpr ⟨?_, List.pairwise_cons.mpr
      ⟨?_, List.Pairwise.nil⟩⟩
    · intro b hb
      rcases List.mem_cons.mp hb with h | h
      · subst h
        exact Or.inl (by decide)
      · exact absurd h (by simp)
    · intro b hb
      exact absurd hb (by simp)

/-- C5: first-match-wins.  Scanning is by groups in configured order and
patterns in configured order within a group: whenever every pattern of
the earlier groups and every earlier pattern of the matching group fails,
the first matching pattern fixes (groupIndex, patternIndex).  In
particular, with one group `['a/*', 'a/b']` and path `a/b` both of whose
patterns match, the weight is (0, 0) — by the `a/*` pattern, not the more
specific `a/b`. -/
theorem c5_first_match_wins :
    (∀ (m : String → String → Bool) (gs₁ gs₂ : List (List String))
        (ps₁ ps₂ : List String) (p path : String) (d ns : Option String)
        (si : List SingleImport),
      (∀ g ∈ gs₁, ∀ q ∈ g, m path q = false) →
      (∀ q ∈ ps₁, m path q = false) →
      m path p = true →
      strTruthy d = true →
      ∃ w, getImportWeight m (gs₁ ++ (ps₁ ++ p :: ps₂) :: gs₂) d ns si path
          = some w ∧ w.group = gs₁.length ∧ w.pattern = ps₁.length) ∧
    (∀ m : String → String → Bool,
      m "a/b" "a/*" = true → m "a/b" "a/b" = true →
      getImportWeight m [["a/*", "a/b"]] (some "X") none [] "a/b" =
        some { group := 0, pattern := 0, type := 0, name := "X" }) := by
  constructor
  · intro m gs₁ gs₂ ps₁ ps₂ p path d ns si h1 h2 hp hd
    have hfp : findPatternIndex m path (ps₁ ++ p :: ps₂) 0 =
        some (0 + ps₁.length) := findPatternIndex_first h2 hp 0
    have hstep : findGroupMatch m path ((ps₁ ++ p :: ps₂) :: gs₂)
        (0 + gs₁.length) = some (0 + gs₁.length, 0 + ps₁.length) := by
      unfold findGroupMatch
      rw [hfp]
    unfold getImportWeight
    rw [findGroupMatch_skip h1 0, hstep]
    cases d with
    | none => simp [strTruthy] at hd
    | some sval =>
      refine ⟨({ group := 0 + gs₁.length, pattern := 0 + ps₁.length,
                 type := 0, name := sval } : ImportWeight),
        ?_, by simp, by simp⟩
      simp [hd]
  · intro m h1 _
    have hfp : findPatternIndex m "a/b" ["a/*", "a/b"] 0 = some 0 := by
      unfold findPatternIndex
      rw [h1]
      simp
    have hstep : findGroupMatch m "a/b" [["a/*", "a/b"]] 0 = some (0, 0) := by
      unfold findGroupMatch
      rw [hfp]
    unfold getImportWeight
    rw [hstep]
    simp [strTruthy]

/-- C5 witness: with a matcher under which both patterns match, the
weight is taken from the first pattern. -/
theorem c5_witness :
    getImportWeight matchAll [["a/*", "a/b"]] (some "X") none [] "a/b" =
      some { group := 0, pattern := 0, type := 0, name := "X" } :=
  c5_first_match_wins.2 matchAll rfl rfl

/-- C7 counterexample: permuting two distinct records with equal
(degenerate) weights permutes the stable sort's output, so the
Regenerator's text differs across input orders. -/
theorem c7_counterexample :
    List.Perm [c7RecordB, c7RecordA] [c7RecordA, c7RecordB] ∧
    getFixedImportRecords [c7RecordB, c7RecordA] ≠
      getFixedImportRecords [c7RecordA, c7RecordB] := by
  constructor
  · exact List.Perm.swap c7RecordA c7RecordB []
  · decide

/-- C7 (amended): the Regenerator is a pure function, so repeated runs on
the same list are byte-identical; and when the records' weights are
pairwise strictly ordered (no two equal weights), the output is
byte-identical across every permutation of the input order as well. -/
theorem c7_deterministic_of_comparable (L : List ImportRecord)
    (hcomp : L.Pairwise comparableRecords) :
    ∀ L', List.Perm L' L →
      getFixedImportRecords L' = getFixedImportRecords L := by
  intro L' hperm
  unfold getFixedImportRecords
  rw [stableSort_perm_invariant hcomp hperm]

/-- C7 witness: two records with strictly ordered weights produce the
same text in either input order. -/
theorem c7_witness :
    getFixedImportRecords [c7WitnessB, c7WitnessA] =
      getFixedImportRecords [c7WitnessA, c7WitnessB] :=
  by
    apply c7_deterministic_of_comparable [c7WitnessA, c7WitnessB] ?_
      [c7WitnessB, c7WitnessA] (List.Perm.swap c7WitnessA c7WitnessB [])
    refine List.pairwise_cons.mpr ⟨?_, List.pairwise_cons.mpr
      ⟨?_, List.Pairwise.nil⟩⟩
    · intro b hb
      rcases List.mem_cons.mp hb with h | h
      · subst h
        exact Or.inl (by decide)
      · exact absurd h (by simp)
    · intro b hb
      exact absurd hb (by simp)

/-- C8: for any two weights produced by the Weight Calculator against the
supplied configuration, the scalar key `1e6·group + 1e3·pattern + kind`
orders them exactly as the lexicographic order on (group, pattern, kind):
the components occupy disjoint numeric ranges and never collide. -/
theorem c8_numeric_weight_lex :
    ∀ (m m' : String → String → Bool) (d ns d' ns' : Option String)
      (si si' : List SingleImport) (path path' : String)
      (w w' : ImportWeight),
      getImportWeight m groups d ns si path = some w →
      getImportWeight m' groups d' ns' si' path' = some w' →
      (getNumericImportWeight w < getNumericImportWeight w' ↔
        (w.group < w'.group ∨ (w.group = w'.group ∧
          (w.pattern < w'.pattern ∨
            (w.pattern = w'.pattern ∧ w.type < w'.type))))) := by
  intro m m' d ns d' ns' si si' path path' w w' h h'
  have hlen : ∀ g ∈ groups, g.length ≤ 999 := by decide
  have hb := getImportWeight_bounds hlen h
  have hb' := getImportWeight_bounds hlen h'
  exact getNumericImportWeight_lt_iff hb.1 (by omega) hb'.1 (by omega)

/-- C8 witness: the pattern-index contribution alone separates two
weights of the first group. -/
theorem c8_witness :
    getNumericImportWeight ⟨0, 0, 0, "X"⟩ <
      getNumericImportWeight ⟨0, 3, 0, "Y"⟩ :=
  (c8_numeric_weight_lex matchLiteral matchLiteral (some "X") none
    (some "Y") none [] [] "react" "redux" ⟨0, 0, 0, "X"⟩ ⟨0, 3, 0, "Y"⟩
    (by decide) (by decide)).mpr (by decide)

/-- The Weight Calculator returns a weight (does not throw) whenever the
record has a named import, a truthy default or namespace name, or an
unmatched path. -/
theorem getImportWeight_total (m : String → String → Bool)
    (gs : List (List String)) (d ns : Option String) (si : List SingleImport)
    (path : String)
    (h : si ≠ [] ∨ strTruthy d = true ∨ strTruthy ns = true ∨
      (∀ g ∈ gs, ∀ p ∈ g, m path p = false)) :
    ∃ w, getImportWeight m gs d ns si path = some w := by
  rw [← Option.isSome_iff_exists]
  unfold getImportWeight
  cases hfind : findGroupMatch m path gs 0 with
  | none => rfl
  | some ij =>
    obtain ⟨i, j⟩ := ij
    by_cases hd : strTruthy d = true
    · cases d with
      | none => simp [strTruthy] at hd
      | some s => simp [hd]
    · by_cases hns : strTruthy ns = true
      · cases ns with
        | none => simp [strTruthy] at hns
        | some s => simp [hd, hns]
      · rcases h with hsi | hd' | hns' | hnm
        · cases si with
          | nil => exact absurd rfl hsi
          | cons s ss => simp [hd, hns]
        · exact absurd hd' hd
        · exact absurd hns' hns
        · rw [findGroupMatch_none hnm 0] at hfind
          exact absurd hfind (by simp)

/-- C10 counterexample: on a bare side-effect import declaration (empty
specifier list) whose path matches the first configured pattern, record
construction throws (reading `.alias` of `undefined`) instead of
returning an `ImportRecord`. -/
theorem c10_counterexample :
    c10Node.specifiers = [] ∧
    createImportRecord matchLiteral groups c10Node = none := by
  decide

/-- C10 (amended): record construction returns an `ImportRecord` without
throwing for every import node that has a named-import specifier, a
default or namespace specifier with a truthy local name, or a path no
configured pattern matches; only a specifier-free (or all-falsy) node
whose path matches some pattern makes it throw. -/
theorem c10_record_construction (m : String → String → Bool)
    (gs : List (List String)) (node : ImportNode)
    (h : (node.specifiers.filter isSingleImportSpecifier) ≠ [] ∨
      strTruthy (((node.specifiers.filter isDefaultImportSpecifier).map
        getImportSpecifierName).getLast?) = true ∨
      strTruthy (((node.specifiers.filter isNamespaceImportSpecifier).map
        getImportSpecifierName).getLast?) = true ∨
      (∀ g ∈ gs, ∀ p ∈ g, m node.sourceValue p = false)) :
    ∃ r, createImportRecord m gs node = some r := by
  have h' : ((node.specifiers.filter isSingleImportSpecifier).map
      (fun s => ({ name := s.importedName,
                   aliasName := s.localName } : SingleImport))) ≠ [] ∨
      strTruthy (((node.specifiers.filter isDefaultImportSpecifier).map
        getImportSpecifierName).getLast?) = true ∨
      strTruthy (((node.specifiers.filter isNamespaceImportSpecifier).map
        getImportSpecifierName).getLast?) = true ∨
      (∀ g ∈ gs, ∀ p ∈ g, m node.sourceValue p = false) := by
    rcases h with h | h
    · exact Or.inl (by simpa using h)
    · exact Or.inr h
  obtain ⟨w, hw⟩ := getImportWeight_total m gs
    (((node.specifiers.filter isDefaultImportSpecifier).map
      getImportSpecifierName).getLast?)
    (((node.specifiers.filter isNamespaceImportSpecifier).map
      getImportSpecifierName).getLast?)
    ((node.specifiers.filter isSingleImportSpecifier).map
      (fun s => { name := s.importedName, aliasName := s.localName }))
    node.sourceValue h'
  simp only [createImportRecord, hw]
  exact ⟨_, rfl⟩

/-- C10 witness: the amended theorem applied to a declaration of one
named import from `react`. -/
theorem c10_witness :
    ∃ r, createImportRecord matchLiteral groups c10WitnessNode = some r :=
  c10_record_construction matchLiteral groups c10WitnessNode
    (Or.inl (by decide))
